import Mathlib

/-!
Verification of the ngxsmk-gatekeeper middleware engine against its design
specification.  The definitions below are shallow embeddings of the
TypeScript sources: JS runtime values become an inductive type, mutable
module state (the debug execution store, the extension registry) becomes
explicit state passing, and fallible computations return Except.
-/

namespace Gatekeeper

/-- Model of a JavaScript runtime value as a finite tree.  Functions are
represented by an opaque identifier, since no code under verification ever
calls through a stored function value except where modelled explicitly. -/
inductive JSValue where
  | vNull
  | vUndefined
  | vBool (b : Bool)
  | vNum (n : Int)
  | vStr (s : String)
  | vFunc (id : Nat)
  | vArr (items : List JSValue)
  | vObj (fields : List (String × JSValue))
  deriving Repr

/-- Decimal digit list to number, for array index keys. -/
def digitsToNat? : List Char → Option Nat
  | [] => none
  | cs =>
      if cs.all Char.isDigit then
        some (cs.foldl (fun acc c => acc * 10 + (c.toNat - 48)) 0)
      else none

/-- A numeric string key, written over the character list so that it
evaluates inside the kernel. -/
def strToNat? (s : String) : Option Nat := digitsToNat? s.data

/-- JS property access `base[key]` for the values our model can index:
object field lookup, array lookup through a numeric string key, and
undefined everywhere else.  Missing properties yield undefined. -/
def jsIndex : JSValue → String → JSValue
  | .vObj fields, k => (fields.lookup k).getD .vUndefined
  | .vArr items, k =>
      match strToNat? k with
      | some i => (items.get? i).getD .vUndefined
      | none => .vUndefined
  | _, _ => .vUndefined

/-- JS `x == null`, true exactly for null and undefined. -/
def jsNullish : JSValue → Bool
  | .vNull => true
  | .vUndefined => true
  | _ => false

/-- JS `typeof x === 'object'` for non-null values of our model: arrays and
plain objects.  null is handled separately by the callers, as in the source;
functions have typeof function. -/
def jsIsObject : JSValue → Bool
  | .vArr _ => true
  | .vObj _ => true
  | _ => false

/-- JS truthiness, as applied by `Boolean(x)` and by `if (x)`. -/
def jsTruthy : JSValue → Bool
  | .vNull => false
  | .vUndefined => false
  | .vBool b => b
  | .vNum n => !(n == 0)
  | .vStr s => !(s == "")
  | .vFunc _ => true
  | .vArr _ => true
  | .vObj _ => true

/-- Model of the JS string split primitive for a single-character
separator, written over the character list so that it evaluates inside the
kernel.  JS split never returns an empty list: an empty input yields a list
holding one empty string. -/
def splitOnCharAux (c : Char) : List Char → List Char → List String
  | [], acc => [String.mk acc.reverse]
  | x :: xs, acc =>
      if x = c then String.mk acc.reverse :: splitOnCharAux c xs []
      else splitOnCharAux c xs (x :: acc)

/-- JS `path.split('.')`. -/
def splitDot (s : String) : List String := splitOnCharAux '.' s.data []

/-- Model of JS `key.toLowerCase()`, written over the character list so
that it evaluates inside the kernel. -/
def lowerString (s : String) : String := String.mk (s.data.map Char.toLower)

/-- The loop body of getValueByPath from
projects/ngxsmk-gatekeeper/src/lib/helpers/object.utils.ts: for each key,
bail out with undefined when the current value is nullish or not an object,
otherwise index into it. -/
def pathWalk : List String → JSValue → JSValue
  | [], current => current
  | key :: keys, current =>
      if jsNullish current || !(jsIsObject current) then .vUndefined
      else pathWalk keys (jsIndex current key)

/-- getValueByPath from
projects/ngxsmk-gatekeeper/src/lib/helpers/object.utils.ts: split the path
on dots and walk the object. -/
def getValueByPath (obj : JSValue) (path : String) : JSValue :=
  pathWalk (splitDot path) obj

/-- Path traversal written from the words of claim C8: the value reached by
traversing the path, with undefined whenever the starting object is
null or undefined or any intermediate value along the path is null or not
an object.  To be compared against getValueByPath. -/
def claimPathTraverse : JSValue → List String → JSValue
  | v, [] => v
  | v, key :: keys =>
      if jsNullish v then .vUndefined
      else if !(jsIsObject v) then .vUndefined
      else claimPathTraverse (jsIndex v key) keys

/-! ## Middleware results and the chain executor -/

/-- The two result shapes a middleware may produce (MiddlewareReturn in
src/lib/core/middleware.types): a plain boolean, or a structured response
with an allow flag and optional redirect and reason. -/
inductive MWReturn where
  | b (b : Bool)
  | resp (allow : Bool) (redirect : Option String) (reason : Option String)
  deriving Repr, DecidableEq

/-- Normalization of a result to its allow flag. -/
def allowsOf : MWReturn → Bool
  | .b x => x
  | .resp a _ _ => a

/-- The redirect a result carries; the plain boolean shape has none. -/
def redirectOf : MWReturn → Option String
  | .b _ => none
  | .resp _ r _ => r

/-- The reason a result carries; the plain boolean shape has none. -/
def reasonOf : MWReturn → Option String
  | .b _ => none
  | .resp _ _ r => r

/-- A unit middleware as the executor sees it: a stable name for tracing
(absent when the author attached none) and the decision function, which
receives the shared context and returns a result together with the
possibly updated context. -/
structure ChainUnit where
  middlewareName : Option String
  run : JSValue → MWReturn × JSValue

/-- Chain outcome: final verdict, redirect and reason captured from the
denying unit, the index the chain stopped at (none when every unit
allowed), and the indices of the units that were invoked, in order. -/
structure ChainOutcome where
  allowed : Bool
  redirect : Option String
  reason : Option String
  stoppedAt : Option Nat
  invoked : List Nat
  deriving Repr, DecidableEq

/-- Modelled from the spec: the chain executor of section 4.2 is not under
src (only its public re-export and its execution-record types are), so its
state machine is taken from the specification text.  Starting at index i,
invoke each unit in order against the threaded context, normalize the
result, stop at the first denial recording stoppedAt = i and capturing
redirect and reason, and allow when the list is exhausted. -/
def executeChainAux : List ChainUnit → JSValue → Nat → ChainOutcome × JSValue
  | [], ctx, _ =>
      ({ allowed := true, redirect := none, reason := none,
         stoppedAt := none, invoked := [] }, ctx)
  | u :: rest, ctx, i =>
      let step := u.run ctx
      if allowsOf step.1 then
        let next := executeChainAux rest step.2 (i + 1)
        ({ next.1 with invoked := i :: next.1.invoked }, next.2)
      else
        ({ allowed := false, redirect := redirectOf step.1,
           reason := reasonOf step.1, stoppedAt := some i,
           invoked := [i] }, step.2)

/-- Modelled from the spec: chain execution starts at index 0. -/
def executeChain (units : List ChainUnit) (ctx : JSValue) : ChainOutcome × JSValue :=
  executeChainAux units ctx 0

/-! ## Authentication middleware (src/unnamed/part_006) -/

/-- AuthMiddlewareOptions with its documented defaults. -/
structure AuthMiddlewareOptions where
  authPath : String
  requireUser : Bool

/-- The default options of createAuthMiddleware. -/
def defaultAuthOptions : AuthMiddlewareOptions :=
  { authPath := "user.isAuthenticated", requireUser := true }

/-- The decision function of the unit produced by createAuthMiddleware:
when requireUser is set and the user entry is nullish, deny with the plain
boolean false; otherwise return Boolean of the value at authPath. -/
def authMiddlewareHandler (options : AuthMiddlewareOptions) (context : JSValue) : MWReturn :=
  if options.requireUser && jsNullish (getValueByPath context "user") then
    .b false
  else
    .b (jsTruthy (getValueByPath context options.authPath))

/-! ## Debug instrumentation module (src/unnamed/part_013)

The module builds sanitized context snapshots and stores execution records
in a bounded store.  The sensitive-key set SENSITIVE_KEYS is built from
DEFAULT_SENSITIVE_FIELDS, whose defining constant file is not under src, so
every definition below is parameterized by the key list S. -/

/-- The recursion of filterSensitiveData increments a depth counter and
returns a marker once depth exceeds maxDepth, so the number of remaining
levels maxDepth + 1 - depth acts as fuel.  This is that recursion, indexed
directly by the fuel: fuel 0 corresponds to depth greater than maxDepth.
Within one level: null and undefined are returned as given, non-objects
are returned as given, array items recurse one level deeper, and object
entries are replaced by the marker when the lowercased key is sensitive,
replaced by a function marker when the value is a function, and recurse
one level deeper otherwise. -/
def filterAux (S : List String) : Nat → JSValue → JSValue
  | 0, _ => .vStr "[Max Depth Reached]"
  | fuel + 1, obj =>
      match obj with
      | .vNull => .vNull
      | .vUndefined => .vUndefined
      | .vArr items => .vArr (items.map (filterAux S fuel))
      | .vObj fields =>
          .vObj (fields.map (fun kv =>
            if S.contains (lowerString kv.1) then (kv.1, .vStr "[Filtered]")
            else
              match kv.2 with
              | .vFunc _ => (kv.1, .vStr "[Function]")
              | v => (kv.1, filterAux S fuel v)))
      | v => v

/-- filterSensitiveData from src/unnamed/part_013 with its depth and
maxDepth parameters, implemented through the fuel-indexed recursion: the
source tests depth > maxDepth on entry and recurses at depth + 1, which is
exactly filterAux at fuel maxDepth + 1 - depth. -/
def filterSensitiveData (S : List String) (obj : JSValue) (depth maxDepth : Nat) : JSValue :=
  filterAux S (maxDepth + 1 - depth) obj

/-- JS property assignment `record[key] = value` on a record modelled as an
association list: overwrite an existing key in place, append a new key. -/
def recordSet (r : List (String × JSValue)) (k : String) (v : JSValue) : List (String × JSValue) :=
  if r.any (fun kv => kv.1 == k) then
    r.map (fun kv => if kv.1 == k then (kv.1, v) else kv)
  else r ++ [(k, v)]

/-- JS `Object.assign(target, source)`: assign every source entry in
order. -/
def recordAssign (r src : List (String × JSValue)) : List (String × JSValue) :=
  src.foldl (fun acc kv => recordSet acc kv.1 kv.2) r

/-- One of the guarded picks at the top of sanitizeContext: include the key
when the context holds a truthy string there. -/
def sanitizePick (context : JSValue) (k : String) : List (String × JSValue) :=
  match jsIndex context k with
  | .vStr s => if s == "" then [] else [(k, .vStr s)]
  | _ => []

/-- sanitizeContext from src/unnamed/part_013: copy the url, path, method
and contextType entries when they are truthy strings, then Object.assign
the filtered context (filterSensitiveData with its default depth 0 and
maxDepth 3) over the result whenever the filtered value is a non-null
object.  An array result is assigned through its index keys. -/
def sanitizeContext (S : List String) (context : JSValue) : List (String × JSValue) :=
  let base := sanitizePick context "url" ++ sanitizePick context "path" ++
    sanitizePick context "method" ++ sanitizePick context "contextType"
  match filterSensitiveData S context 0 3 with
  | .vObj fields => recordAssign base fields
  | .vArr items =>
      recordAssign base ((List.range items.length).zip items |>.map
        (fun iv => (toString iv.1, iv.2)))
  | _ => base

/-- The context type discriminator of the engine. -/
inductive ContextType where
  | route
  | http
  deriving Repr, DecidableEq

/-- MiddlewareExecutionRecord from src/unnamed/part_013. -/
structure MiddlewareExecutionRecord where
  id : String
  timestamp : Int
  middlewareName : String
  middlewareIndex : Nat
  contextType : ContextType
  contextPath : Option String
  chunkName : Option String
  result : Bool
  duration : Int
  error : Option String
  sanitizedContext : List (String × JSValue)

/-- ChainExecutionRecord from src/unnamed/part_013. -/
structure ChainExecutionRecord where
  id : String
  timestamp : Int
  contextType : ContextType
  contextPath : Option String
  chunkName : Option String
  middlewareCount : Nat
  result : Bool
  stoppedAt : Int
  totalDuration : Int
  redirect : Option String
  middlewareExecutions : List MiddlewareExecutionRecord

/-- The maxRecords bound of the ExecutionStore. -/
def maxRecords : Nat := 100

/-- The mutable state of the ExecutionStore class. -/
structure ExecutionStore where
  chains : List ChainExecutionRecord
  middlewareExecutions : List MiddlewareExecutionRecord

/-- The store the module creates at load time: both lists empty. -/
def emptyStore : ExecutionStore := { chains := [], middlewareExecutions := [] }

/-- ExecutionStore.addChain: push, then shift the oldest record when the
length exceeds maxRecords. -/
def addChain (s : ExecutionStore) (c : ChainExecutionRecord) : ExecutionStore :=
  { s with chains :=
      if maxRecords < (s.chains ++ [c]).length then (s.chains ++ [c]).drop 1
      else s.chains ++ [c] }

/-- ExecutionStore.addMiddlewareExecution: push, then shift the oldest
record when the length exceeds maxRecords. -/
def addMiddlewareExecution (s : ExecutionStore) (m : MiddlewareExecutionRecord) : ExecutionStore :=
  { s with middlewareExecutions :=
      if maxRecords < (s.middlewareExecutions ++ [m]).length then
        (s.middlewareExecutions ++ [m]).drop 1
      else s.middlewareExecutions ++ [m] }

/-- ExecutionStore.getChains returns a copy of the chain list. -/
def getChains (s : ExecutionStore) : List ChainExecutionRecord := s.chains

/-- ExecutionStore.getMiddlewareExecutions returns a copy of the list. -/
def getMiddlewareExecutions (s : ExecutionStore) : List MiddlewareExecutionRecord :=
  s.middlewareExecutions

/-- ExecutionStore.getLatestChain returns the newest chain record. -/
def getLatestChain (s : ExecutionStore) : Option ChainExecutionRecord :=
  s.chains.getLast?

/-- The store operations a client may perform. -/
inductive StoreOp where
  | opAddChain (c : ChainExecutionRecord)
  | opAddMiddlewareExecution (m : MiddlewareExecutionRecord)

/-- Apply a sequence of store operations. -/
def runStoreOps (ops : List StoreOp) (s : ExecutionStore) : ExecutionStore :=
  ops.foldl (fun acc op =>
    match op with
    | .opAddChain c => addChain acc c
    | .opAddMiddlewareExecution m => addMiddlewareExecution acc m) s

/-- The ambient inputs the recording functions read: the development-mode
check on NODE_ENV, the presence of a browser window, and the clock and
random source used to mint record ids. -/
structure DebugEnv where
  isDev : Bool
  hasWindow : Bool
  now : Int
  rand : String

/-- DebugOptions as consumed by the recording functions: context type,
optional context path and chunk name, and the live context. -/
structure DebugOptions where
  contextType : ContextType
  contextPath : Option String
  chunkName : Option String
  context : JSValue

/-- getMiddlewareName from src/unnamed/part_013: the middlewareName
attached to the function when present, otherwise an index-based
placeholder. -/
def getMiddlewareName (middlewareName : Option String) (index : Nat) : String :=
  match middlewareName with
  | some n => n
  | none => "Middleware[" ++ toString index ++ "]"

/-- recordMiddlewareExecution from src/unnamed/part_013: a no-op outside
development mode or outside a browser; otherwise build the execution
record, with the sanitized snapshot of the context, and add it to the
store.  The mutable module store is threaded explicitly. -/
def recordMiddlewareExecution (S : List String) (env : DebugEnv)
    (options : DebugOptions) (middlewareName : Option String) (index : Nat)
    (startTime endTime : Int) (result : Bool) (error : Option String)
    (store : ExecutionStore) : ExecutionStore :=
  if !(env.isDev && env.hasWindow) then store
  else
    addMiddlewareExecution store
      { id := toString env.now ++ "-" ++ toString index ++ "-" ++ env.rand,
        timestamp := startTime,
        middlewareName := getMiddlewareName middlewareName index,
        middlewareIndex := index,
        contextType := options.contextType,
        contextPath := options.contextPath,
        chunkName := options.chunkName,
        result := result,
        duration := endTime - startTime,
        error := error,
        sanitizedContext := sanitizeContext S options.context }

/-- The MiddlewareResult fields recordChainExecution consumes. -/
structure MiddlewareResultShape where
  result : Bool
  stoppedAt : Int
  redirect : Option String

/-- recordChainExecution from src/unnamed/part_013: a no-op outside
development mode or a browser; otherwise take the most recent middleware
records from the store, slice(-middlewareExecutions.length || -10), and
add the chain record built from them and the chain result. -/
def recordChainExecution (env : DebugEnv) (options : DebugOptions)
    (result : MiddlewareResultShape) (totalDuration : Int)
    (middlewareExecutions : List MiddlewareExecutionRecord)
    (store : ExecutionStore) : ExecutionStore :=
  if !(env.isDev && env.hasWindow) then store
  else
    let n := middlewareExecutions.length
    let k := if n = 0 then 10 else n
    let all := getMiddlewareExecutions store
    let recentExecutions := all.drop (all.length - k)
    addChain store
      { id := toString env.now ++ "-" ++ env.rand,
        timestamp := env.now,
        contextType := options.contextType,
        contextPath := options.contextPath,
        chunkName := options.chunkName,
        middlewareCount := recentExecutions.length,
        result := result.result,
        stoppedAt := result.stoppedAt,
        totalDuration := totalDuration,
        redirect := result.redirect,
        middlewareExecutions := recentExecutions }

/-- Modelled from the spec: the debug-instrumented executor of section 4.4
wraps the executor, which itself is not under src, recording each unit
invocation as it completes.  This walk mirrors executeChainAux while
threading the store through recordMiddlewareExecution; it also collects
the number of records it produced so that the final chain record can be
built.  It returns the plain outcome together with the final store. -/
def executeChainDebugAux (S : List String) (env : DebugEnv) (options : DebugOptions) :
    List ChainUnit → JSValue → Nat → ExecutionStore →
    (ChainOutcome × JSValue) × (ExecutionStore × List MiddlewareExecutionRecord)
  | [], ctx, _, store =>
      (({ allowed := true, redirect := none, reason := none,
          stoppedAt := none, invoked := [] }, ctx), (store, []))
  | u :: rest, ctx, i, store =>
      let step := u.run ctx
      let opts := { options with context := step.2 }
      let store' := recordMiddlewareExecution S env opts u.middlewareName i
        env.now env.now (allowsOf step.1) none store
      let made :=
        if env.isDev && env.hasWindow then
          (getMiddlewareExecutions store').drop (getMiddlewareExecutions store').length.pred
        else []
      if allowsOf step.1 then
        let next := executeChainDebugAux S env options rest step.2 (i + 1) store'
        (({ next.1.1 with invoked := i :: next.1.1.invoked }, next.1.2),
         (next.2.1, made ++ next.2.2))
      else
        (({ allowed := false, redirect := redirectOf step.1,
            reason := reasonOf step.1, stoppedAt := some i,
            invoked := [i] }, step.2), (store', made))

/-- Modelled from the spec: run the chain with debug recording enabled and
record the whole chain at the end, as section 4.4 describes.  A chain
where every unit allowed records stoppedAt as the unit count, matching
the allowed, stoppedAt length outcome of section 8. -/
def executeChainDebug (S : List String) (env : DebugEnv) (options : DebugOptions)
    (units : List ChainUnit) (ctx : JSValue) (store : ExecutionStore) :
    (ChainOutcome × JSValue) × ExecutionStore :=
  let walked := executeChainDebugAux S env options units ctx 0 store
  let outcome := walked.1.1
  let shape : MiddlewareResultShape :=
    { result := outcome.allowed,
      stoppedAt := match outcome.stoppedAt with
        | some i => (i : Int)
        | none => (units.length : Int),
      redirect := outcome.redirect }
  (walked.1, recordChainExecution env options shape 0 walked.2.2 walked.2.1)

/-! ## Object graphs with sharing and cycles

JS objects are heap references, so a cyclic or arbitrarily deep object
graph is modelled as a heap assigning a node to every reference.  The
graph variant of filterSensitiveData below is the same source function
read over this representation; it is the form on which the termination
claim about cyclic inputs can be stated. -/

/-- A JS value as seen on the heap: a primitive, a function, or a
reference to a heap node. -/
inductive HVal where
  | hnull
  | hundefined
  | hbool (b : Bool)
  | hnum (n : Int)
  | hstr (s : String)
  | hfunc (id : Nat)
  | href (r : Nat)
  deriving Repr, DecidableEq

/-- A heap node: an array of values or an object of keyed values. -/
inductive HNode where
  | arr (items : List HVal)
  | obj (fields : List (String × HVal))

/-- A heap maps every reference to its node; cycles are heaps whose nodes
refer back to themselves. -/
def Heap : Type := Nat → HNode

/-- filterSensitiveData read over heap values, indexed by the same fuel
maxDepth + 1 - depth as the tree version: fuel 0 is the depth guard, null,
undefined, primitives and functions are returned converted, and a
reference recurses one level deeper through its node exactly as the source
recurses into arrays and objects. -/
def filterGAux (S : List String) (heap : Heap) : Nat → HVal → JSValue
  | 0, _ => .vStr "[Max Depth Reached]"
  | fuel + 1, v =>
      match v with
      | .hnull => .vNull
      | .hundefined => .vUndefined
      | .hbool b => .vBool b
      | .hnum n => .vNum n
      | .hstr s => .vStr s
      | .hfunc id => .vFunc id
      | .href r =>
          match heap r with
          | .arr items => .vArr (items.map (filterGAux S heap fuel))
          | .obj fields =>
              .vObj (fields.map (fun kv =>
                if S.contains (lowerString kv.1) then (kv.1, .vStr "[Filtered]")
                else
                  match kv.2 with
                  | .hfunc _ => (kv.1, .vStr "[Function]")
                  | w => (kv.1, filterGAux S heap fuel w)))

/-- filterSensitiveData on a heap value at a given depth and maxDepth. -/
def filterSensitiveDataG (S : List String) (heap : Heap) (v : HVal)
    (depth maxDepth : Nat) : JSValue :=
  filterGAux S heap (maxDepth + 1 - depth) v

/-- The direct-recursive-call relation of filterSensitiveData on the heap:
a call at (v, depth) spawns a call at (w, depth + 1) only when depth is
within maxDepth, v is a reference, and w is an array item of its node or a
non-sensitive, non-function object entry value of its node.  Calls deeper
than maxDepth return the marker without recursing, and sensitive or
function-valued entries are replaced without being traversed. -/
def CallStep (S : List String) (heap : Heap) (maxDepth : Nat)
    (a b : HVal × Nat) : Prop :=
  a.2 ≤ maxDepth ∧ b.2 = a.2 + 1 ∧
  ∃ r, a.1 = .href r ∧
    ((∃ items, heap r = .arr items ∧ b.1 ∈ items) ∨
     (∃ fields k, heap r = .obj fields ∧ (k, b.1) ∈ fields ∧
        S.contains (lowerString k) = false ∧ ∀ i, b.1 ≠ .hfunc i))

/-! ## Extension registry
(src/projects/ngxsmk-gatekeeper/src/lib/extensions/extension.registry.ts) -/

/-- A handle standing for an NgxMiddleware or MiddlewarePipeline value.
The registry never inspects these values, it only stores them, so an
abstract token suffices. -/
abbrev MWHandle : Type := Nat

/-- One registration call an extension makes on its ExtensionContext
during initialize: registerPreMiddleware, registerPostMiddleware or
registerMiddleware, each appending its arguments. -/
inductive RegAction where
  | pre (ms : List MWHandle)
  | post (ms : List MWHandle)
  | merged (ms : List MWHandle)

/-- A GatekeeperExtension as the registry consumes it: its id, the
registration calls its initialize makes, the middleware list initialize
returns or the error it throws, and the outcome of its destroy hook
(ok when the hook is absent or succeeds). -/
structure GatekeeperExtension where
  id : String
  initActions : List RegAction
  initResult : Except String (List MWHandle)
  destroyResult : Except String Unit

/-- ExtensionRegistration: the result record register returns. -/
structure ExtensionRegistration where
  extension : GatekeeperExtension
  success : Bool
  error : Option String
  registeredMiddleware : List MWHandle

/-- The private state of the ExtensionRegistry service: the two maps,
kept in insertion order, and the three middleware arrays. -/
structure ExtensionRegistry where
  extensions : List (String × GatekeeperExtension)
  registrations : List (String × ExtensionRegistration)
  preMiddleware : List MWHandle
  postMiddleware : List MWHandle
  mergedMiddleware : List MWHandle

/-- The registry as constructed: everything empty. -/
def emptyRegistry : ExtensionRegistry :=
  { extensions := [], registrations := [], preMiddleware := [],
    postMiddleware := [], mergedMiddleware := [] }

/-- Effect of one ExtensionContext registration callback from
createExtensionContext: each pushes onto its array. -/
def applyRegAction (s : ExtensionRegistry) : RegAction → ExtensionRegistry
  | .pre ms => { s with preMiddleware := s.preMiddleware ++ ms }
  | .post ms => { s with postMiddleware := s.postMiddleware ++ ms }
  | .merged ms => { s with mergedMiddleware := s.mergedMiddleware ++ ms }

/-- ExtensionRegistry.register: a duplicate id resolves to a failed
registration and touches nothing; otherwise initialize runs against the
extension context, so its registration calls are applied to the state
first, and then the extension is stored when initialize returned, or a
failed registration is returned when it threw.  The pushes initialize
already made are kept in the thrown case, as in the source, where the
catch block only builds the failure result. -/
def register (s : ExtensionRegistry) (ext : GatekeeperExtension) :
    ExtensionRegistration × ExtensionRegistry :=
  if (s.extensions.lookup ext.id).isSome then
    ({ extension := ext, success := false,
       error := some ("Extension with id \"" ++ ext.id ++ "\" is already registered"),
       registeredMiddleware := [] }, s)
  else
    let s' := ext.initActions.foldl applyRegAction s
    match ext.initResult with
    | .ok middlewareArray =>
        let registration : ExtensionRegistration :=
          { extension := ext, success := true, error := none,
            registeredMiddleware := middlewareArray }
        (registration,
         { s' with extensions := s'.extensions ++ [(ext.id, ext)],
                   registrations := s'.registrations ++ [(ext.id, registration)] })
    | .error e =>
        ({ extension := ext, success := false, error := some e,
           registeredMiddleware := [] }, s')

/-- ExtensionRegistry.unregister: unknown ids report false; a destroy hook
that throws is caught and reports false without removing anything; on
success the extension and its registration are removed and all three
middleware arrays are reset to empty. -/
def unregister (s : ExtensionRegistry) (extensionId : String) :
    Bool × ExtensionRegistry :=
  match s.extensions.lookup extensionId with
  | none => (false, s)
  | some ext =>
      match ext.destroyResult with
      | .error _ => (false, s)
      | .ok _ =>
          (true,
           { s with
             extensions := s.extensions.filter (fun kv => !(kv.1 == extensionId)),
             registrations := s.registrations.filter (fun kv => !(kv.1 == extensionId)),
             preMiddleware := [], postMiddleware := [], mergedMiddleware := [] })

/-- ExtensionRegistry.getPreMiddleware returns a copy of the array. -/
def getPreMiddleware (s : ExtensionRegistry) : List MWHandle := s.preMiddleware

/-- ExtensionRegistry.getPostMiddleware returns a copy of the array. -/
def getPostMiddleware (s : ExtensionRegistry) : List MWHandle := s.postMiddleware

/-- ExtensionRegistry.getMergedMiddleware returns a copy of the array. -/
def getMergedMiddleware (s : ExtensionRegistry) : List MWHandle := s.mergedMiddleware

/-- The registry operations a client may perform. -/
inductive RegistryOp where
  | opRegister (ext : GatekeeperExtension)
  | opUnregister (extensionId : String)

/-- True for registration operations. -/
def RegistryOp.isRegister : RegistryOp → Bool
  | .opRegister _ => true
  | .opUnregister _ => false

/-- Apply a sequence of registry operations. -/
def runRegistryOps (ops : List RegistryOp) (s : ExtensionRegistry) : ExtensionRegistry :=
  ops.foldl (fun acc op =>
    match op with
    | .opRegister ext => (register acc ext).2
    | .opUnregister i => (unregister acc i).2) s

/-! ## Security headers middleware
(src/projects/ngxsmk-gatekeeper/src/lib/security-headers/security-headers.middleware.ts) -/

/-- A configured header value: a static string, or a zero-argument function
returning the string, which may throw. -/
inductive HeaderValue where
  | hstr (s : String)
  | hfun (f : Except String String)

/-- What a header value resolves to; none when the function throws. -/
def resolvesTo : HeaderValue → Option String
  | .hstr s => some s
  | .hfun (.ok s) => some s
  | .hfun (.error _) => none

/-- SecurityHeadersConfig: the header map and the overwrite flag, whose
default is false. -/
structure SecurityHeadersConfig where
  headers : List (String × HeaderValue)
  overwrite : Bool

/-- SecurityHeadersEntry: the resolved headers stored in the context under
SECURITY_HEADERS_KEY together with the effective overwrite flag. -/
structure SecurityHeadersEntry where
  headers : List (String × String)
  overwrite : Bool
  deriving DecidableEq

/-- The middleware context as the security-headers middleware sees it: the
domain entries, and the SECURITY_HEADERS_KEY slot, which per its TS type
holds a SecurityHeadersEntry when present. -/
structure SHContext where
  entries : List (String × JSValue)
  securityHeaders : Option SecurityHeadersEntry

/-- JS string-record assignment `record[key] = value`, as in recordSet. -/
def recordSetStr (r : List (String × String)) (k v : String) : List (String × String) :=
  if r.any (fun kv => kv.1 == k) then
    r.map (fun kv => if kv.1 == k then (kv.1, v) else kv)
  else r ++ [(k, v)]

/-- The header-resolution loop of securityHeadersMiddleware: walk the
configured entries in order, call function values and skip the header when
the call throws, assign the resolved string otherwise. -/
def resolveHeaders (headers : List (String × HeaderValue)) : List (String × String) :=
  headers.foldl (fun acc kv =>
    match resolvesTo kv.2 with
    | some s => recordSetStr acc kv.1 s
    | none => acc) []

/-- JS object spread of two string records: the first record in order with
the second overriding shared keys, then the new keys of the second. -/
def spreadMergeStr (a b : List (String × String)) : List (String × String) :=
  a.map (fun kv => (kv.1, ((b.lookup kv.1).getD kv.2))) ++
    b.filter (fun kv => !(a.any (fun kv2 => kv2.1 == kv.1)))

/-- The decision function of the unit produced by securityHeadersMiddleware:
resolve the configured headers, merge them into the existing entry under
the overwrite policy, store the merged entry, and allow.  On overwrite the
resolved headers win, otherwise the existing headers win; the merged
overwrite flag is the disjunction. -/
def securityHeadersHandler (config : SecurityHeadersConfig) (context : SHContext) :
    MWReturn × SHContext :=
  let resolvedHeaders := resolveHeaders config.headers
  match context.securityHeaders with
  | some existingEntry =>
      let mergedHeaders :=
        if config.overwrite then spreadMergeStr existingEntry.headers resolvedHeaders
        else spreadMergeStr resolvedHeaders existingEntry.headers
      let mergedOverwrite := config.overwrite || existingEntry.overwrite
      let entry : SecurityHeadersEntry :=
        { headers := mergedHeaders, overwrite := mergedOverwrite }
      (.b true, { context with securityHeaders := some entry })
  | none =>
      let entry : SecurityHeadersEntry :=
        { headers := resolvedHeaders, overwrite := config.overwrite }
      (.b true, { context with securityHeaders := some entry })

/-! ## Named instances used by witnesses and counterexamples -/

/-- The deny-time context of the C7 scenario. -/
def authDenyCtx : JSValue :=
  .vObj [("user", .vObj [("isAuthenticated", .vBool false)])]

/-- An authenticated context used to witness the general clause of C7. -/
def authAllowCtx : JSValue :=
  .vObj [("user", .vObj [("isAuthenticated", .vBool true)])]

/-- The bound invariant on the execution store. -/
def storeInv (s : ExecutionStore) : Prop :=
  s.chains.length ≤ maxRecords ∧ s.middlewareExecutions.length ≤ maxRecords

/-- A throwaway chain record used by witnesses. -/
def sampleChainRecord : ChainExecutionRecord :=
  { id := "c", timestamp := 0, contextType := .route, contextPath := none,
    chunkName := none, middlewareCount := 0, result := true, stoppedAt := 0,
    totalDuration := 0, redirect := none, middlewareExecutions := [] }

/-- A throwaway middleware record used by witnesses. -/
def sampleMWRecord : MiddlewareExecutionRecord :=
  { id := "m", timestamp := 0, middlewareName := "mw", middlewareIndex := 0,
    contextType := .route, contextPath := none, chunkName := none,
    result := true, duration := 0, error := none, sanitizedContext := [] }

/-- A store whose chain list is exactly full. -/
def fullChainStore : ExecutionStore :=
  { chains := List.replicate maxRecords sampleChainRecord, middlewareExecutions := [] }

/-- An extension that registers one pre-unit, used by witnesses and
counterexamples. -/
def extA : GatekeeperExtension :=
  { id := "ext-a", initActions := [.pre [1]], initResult := .ok [],
    destroyResult := .ok () }

/-- A second extension registering one pre-unit. -/
def extB : GatekeeperExtension :=
  { id := "ext-b", initActions := [.pre [2]], initResult := .ok [],
    destroyResult := .ok () }

/-- The registry after extension ext-a has been registered. -/
def registryWithA : ExtensionRegistry := (register emptyRegistry extA).2

/-- The registry after registering ext-a then ext-b and then unregistering
only ext-b. -/
def registryAfterUnregB : ExtensionRegistry :=
  runRegistryOps [.opRegister extA, .opRegister extB, .opUnregister "ext-b"]
    emptyRegistry

/-- The registration-only operation sequence used by the C6 witness. -/
def regOnlyOps : List RegistryOp := [.opRegister extA, .opRegister extB]

/-- A configuration with one static header and one throwing header
function, used by the C10 witness. -/
def shConfig0 : SecurityHeadersConfig :=
  { headers := [("X-Request-Source", .hstr "app"), ("X-Bad", .hfun (.error "boom"))],
    overwrite := false }

/-- An empty context for the C10 witness. -/
def shCtx0 : SHContext := { entries := [], securityHeaders := none }

/-- The sensitive-key list used by the C4 witness. -/
def sensListW : List String := ["password"]

/-- A cyclic heap: its single node is an object holding a reference back
to itself and a function-valued entry. -/
def cyclicHeap : Heap := fun _ => .obj [("self", .href 0), ("fn", .hfunc 7)]

/-- A call chain candidate that keeps revisiting the cyclic node. -/
def cyclicChain : Nat → HVal × Nat := fun n => (.href 0, n)

/-- Scalar JS values: booleans, numbers and strings. -/
def isScalar : JSValue → Bool
  | .vBool _ => true
  | .vNum _ => true
  | .vStr _ => true
  | _ => false

/-- The context of the C3 scenario. -/
def sensitiveCtx : JSValue :=
  .vObj [("user", .vObj [("password", .vStr "secret123"), ("id", .vStr "u1")])]

/-- The sensitive-key list for the C3 witness. -/
def sensList3 : List String := ["password", "token", "secret"]

/-- The debug environment of the C3 witness: development mode in a
browser. -/
def envW : DebugEnv := { isDev := true, hasWindow := true, now := 0, rand := "r" }

/-- The debug options of the C3 witness carrying the scenario context. -/
def optionsW : DebugOptions :=
  { contextType := .route, contextPath := none, chunkName := none,
    context := sensitiveCtx }

/-- A unit that always allows with the plain boolean shape. -/
def allowUnit : ChainUnit := { middlewareName := some "allow", run := fun c => (.b true, c) }

/-- A unit that always denies with the plain boolean shape. -/
def denyUnit : ChainUnit := { middlewareName := some "deny", run := fun c => (.b false, c) }

/-- The unit list of the C1 scenario: allow, allow, deny, allow. -/
def shortUnits : List ChainUnit := [allowUnit, allowUnit, denyUnit, allowUnit]

/-! ## Theorems -/

/-- A JS single-character split never produces an empty list. -/
theorem splitOnCharAux_ne_nil (c : Char) (cs acc : List Char) :
    splitOnCharAux c cs acc ≠ [] := by
  induction cs generalizing acc with
  | nil => simp [splitOnCharAux]
  | cons x xs ih =>
      simp only [splitOnCharAux]
      split
      · simp
      · exact ih _

/-- The path walk of the source agrees with the traversal written from the
words of the claim. -/
theorem pathWalk_eq_claimPathTraverse (keys : List String) (v : JSValue) :
    pathWalk keys v = claimPathTraverse v keys := by
  induction keys generalizing v with
  | nil => rfl
  | cons k ks ih =>
      simp only [pathWalk, claimPathTraverse]
      cases h1 : jsNullish v <;> cases h2 : jsIsObject v <;> simp [h1, h2, ih]

/-- C8: getValueByPath is total and never throws; for every object and
every dot-separated path it returns the value reached by traversing the
path, where traversal yields undefined whenever the current value is null
or undefined or not an object, and in particular a null or undefined
starting object always yields undefined. -/
theorem getValueByPath_total_and_safe (obj : JSValue) (path : String) :
    getValueByPath obj path = claimPathTraverse obj (splitDot path) ∧
    getValueByPath .vNull path = .vUndefined ∧
    getValueByPath .vUndefined path = .vUndefined := by
  refine ⟨pathWalk_eq_claimPathTraverse _ _, ?_, ?_⟩ <;>
  · unfold getValueByPath
    cases h : splitDot path with
    | nil => exact absurd h (splitOnCharAux_ne_nil _ _ _)
    | cons k ks => simp [pathWalk, jsNullish, jsIsObject]

/-- C7: the auth unit with the default authPath user.isAuthenticated
returns the plain boolean false, with no redirect, on a context whose user
is not authenticated; and whenever the user entry exists (is not nullish)
it returns Boolean of the value at the configured path. -/
theorem authMiddleware_boolean_deny :
    authMiddlewareHandler defaultAuthOptions authDenyCtx = .b false ∧
    redirectOf (authMiddlewareHandler defaultAuthOptions authDenyCtx) = none ∧
    (∀ ctx, jsNullish (getValueByPath ctx "user") = false →
      authMiddlewareHandler defaultAuthOptions ctx =
        .b (jsTruthy (getValueByPath ctx defaultAuthOptions.authPath))) := by
  refine ⟨rfl, rfl, ?_⟩
  intro ctx h
  simp [authMiddlewareHandler, defaultAuthOptions, h]

/-- Witness for C7 at a context whose user object exists. -/
theorem authMiddleware_boolean_deny_witness :
    jsNullish (getValueByPath authAllowCtx "user") = false ∧
    authMiddlewareHandler defaultAuthOptions authAllowCtx =
      .b (jsTruthy (getValueByPath authAllowCtx defaultAuthOptions.authPath)) :=
  ⟨rfl, authMiddleware_boolean_deny.2.2 authAllowCtx rfl⟩

/-- addChain preserves the bound invariant. -/
theorem addChain_inv (s : ExecutionStore) (c : ChainExecutionRecord)
    (h : storeInv s) : storeInv (addChain s c) := by
  obtain ⟨h1, h2⟩ := h
  have hlen : (s.chains ++ [c]).length = s.chains.length + 1 := by simp
  unfold storeInv addChain
  refine ⟨?_, by simpa using h2⟩
  split
  · simp only [List.length_drop, hlen]
    omega
  · rename_i hle
    rw [hlen] at hle ⊢
    omega

/-- addMiddlewareExecution preserves the bound invariant. -/
theorem addMiddlewareExecution_inv (s : ExecutionStore) (m : MiddlewareExecutionRecord)
    (h : storeInv s) : storeInv (addMiddlewareExecution s m) := by
  obtain ⟨h1, h2⟩ := h
  have hlen : (s.middlewareExecutions ++ [m]).length =
      s.middlewareExecutions.length + 1 := by simp
  unfold storeInv addMiddlewareExecution
  refine ⟨by simpa using h1, ?_⟩
  split
  · simp only [List.length_drop, hlen]
    omega
  · rename_i hle
    rw [hlen] at hle ⊢
    omega

/-- Every operation sequence preserves the bound invariant. -/
theorem runStoreOps_inv (ops : List StoreOp) (s : ExecutionStore)
    (h : storeInv s) : storeInv (runStoreOps ops s) := by
  induction ops generalizing s with
  | nil => exact h
  | cons op rest ih =>
      cases op with
      | opAddChain c => exact ih _ (addChain_inv s c h)
      | opAddMiddlewareExecution m => exact ih _ (addMiddlewareExecution_inv s m h)

/-- C2: starting from the empty module store, every sequence of addChain
and addMiddlewareExecution operations leaves at most maxRecords chain
records and at most maxRecords middleware records; an add on a full list
drops exactly the oldest record and appends the new one, keeping the newer
records in insertion order, and an add below the bound is a plain
append. -/
theorem executionStore_ring_buffer :
    (∀ ops, (runStoreOps ops emptyStore).chains.length ≤ maxRecords ∧
      (runStoreOps ops emptyStore).middlewareExecutions.length ≤ maxRecords) ∧
    (∀ s c, s.chains.length = maxRecords →
      (addChain s c).chains = s.chains.drop 1 ++ [c]) ∧
    (∀ s c, s.chains.length < maxRecords →
      (addChain s c).chains = s.chains ++ [c]) ∧
    (∀ s m, s.middlewareExecutions.length = maxRecords →
      (addMiddlewareExecution s m).middlewareExecutions =
        s.middlewareExecutions.drop 1 ++ [m]) ∧
    (∀ s m, s.middlewareExecutions.length < maxRecords →
      (addMiddlewareExecution s m).middlewareExecutions =
        s.middlewareExecutions ++ [m]) := by
  refine ⟨fun ops => runStoreOps_inv ops emptyStore (by simp [storeInv, emptyStore]),
    ?_, ?_, ?_, ?_⟩
  · intro s c h
    unfold addChain
    have hone : 1 ≤ s.chains.length := by rw [h]; decide
    have hlen : maxRecords < (s.chains ++ [c]).length := by simp [h]
    rw [if_pos hlen, List.drop_append_of_le_length hone]
  · intro s c h
    unfold addChain
    have hlen : ¬ maxRecords < (s.chains ++ [c]).length := by simp; omega
    rw [if_neg hlen]
  · intro s m h
    unfold addMiddlewareExecution
    have hone : 1 ≤ s.middlewareExecutions.length := by rw [h]; decide
    have hlen : maxRecords < (s.middlewareExecutions ++ [m]).length := by simp [h]
    rw [if_pos hlen, List.drop_append_of_le_length hone]
  · intro s m h
    unfold addMiddlewareExecution
    have hlen : ¬ maxRecords < (s.middlewareExecutions ++ [m]).length := by simp; omega
    rw [if_neg hlen]

/-- Witness for C2: on a full chain list the add drops the oldest record,
and on the empty store the add is a plain append. -/
theorem executionStore_ring_buffer_witness :
    fullChainStore.chains.length = maxRecords ∧
    (addChain fullChainStore sampleChainRecord).chains =
      fullChainStore.chains.drop 1 ++ [sampleChainRecord] ∧
    emptyStore.middlewareExecutions.length < maxRecords ∧
    (addMiddlewareExecution emptyStore sampleMWRecord).middlewareExecutions =
      emptyStore.middlewareExecutions ++ [sampleMWRecord] :=
  ⟨by simp [fullChainStore],
   executionStore_ring_buffer.2.1 fullChainStore sampleChainRecord
     (by simp [fullChainStore]),
   by simp [emptyStore, maxRecords],
   executionStore_ring_buffer.2.2.2.2 emptyStore sampleMWRecord
     (by simp [emptyStore, maxRecords])⟩

/-- C9: registering an extension whose id is already present resolves to a
failed registration carrying a descriptive error and an empty middleware
list, and returns the registry state exactly as it was. -/
theorem register_duplicate_atomic (s : ExtensionRegistry) (ext : GatekeeperExtension)
    (h : (s.extensions.lookup ext.id).isSome = true) :
    register s ext =
      ({ extension := ext, success := false,
         error := some ("Extension with id \"" ++ ext.id ++ "\" is already registered"),
         registeredMiddleware := [] }, s) := by
  unfold register
  rw [if_pos h]

/-- Witness for C9: re-registering ext-a on a registry that already holds
it fails and leaves the registry untouched. -/
theorem register_duplicate_atomic_witness :
    (registryWithA.extensions.lookup extA.id).isSome = true ∧
    register registryWithA extA =
      ({ extension := extA, success := false,
         error := some ("Extension with id \"" ++ extA.id ++ "\" is already registered"),
         registeredMiddleware := [] }, registryWithA) :=
  ⟨rfl, register_duplicate_atomic registryWithA extA rfl⟩

/-- Counterexample to C6 as stated: after registering ext-a (one pre-unit)
and ext-b (one pre-unit), unregistering ext-b also removes the pre-unit
ext-a registered earlier, so an action of one extension does remove
another extension units and getPreMiddleware no longer returns them. -/
theorem extension_registry_unregister_clears_all :
    getPreMiddleware registryAfterUnregB = [] ∧
    getPreMiddleware registryAfterUnregB ≠ [1] := by
  have h0 : getPreMiddleware registryAfterUnregB = [] := rfl
  exact ⟨h0, fun h => List.noConfusion (h0 ▸ h)⟩

/-- Appending registration actions only appends to the pre array. -/
theorem applyRegActions_pre (actions : List RegAction) (s : ExtensionRegistry) :
    ∃ t, (actions.foldl applyRegAction s).preMiddleware = s.preMiddleware ++ t := by
  induction actions generalizing s with
  | nil => exact ⟨[], by simp⟩
  | cons a rest ih =>
      obtain ⟨t, ht⟩ := ih (applyRegAction s a)
      cases a with
      | pre ms => exact ⟨ms ++ t, by simpa [applyRegAction, List.append_assoc] using ht⟩
      | post ms => exact ⟨t, by simpa [applyRegAction] using ht⟩
      | merged ms => exact ⟨t, by simpa [applyRegAction] using ht⟩

/-- Appending registration actions only appends to the post array. -/
theorem applyRegActions_post (actions : List RegAction) (s : ExtensionRegistry) :
    ∃ t, (actions.foldl applyRegAction s).postMiddleware = s.postMiddleware ++ t := by
  induction actions generalizing s with
  | nil => exact ⟨[], by simp⟩
  | cons a rest ih =>
      obtain ⟨t, ht⟩ := ih (applyRegAction s a)
      cases a with
      | pre ms => exact ⟨t, by simpa [applyRegAction] using ht⟩
      | post ms => exact ⟨ms ++ t, by simpa [applyRegAction, List.append_assoc] using ht⟩
      | merged ms => exact ⟨t, by simpa [applyRegAction] using ht⟩

/-- Appending registration actions only appends to the merged array. -/
theorem applyRegActions_merged (actions : List RegAction) (s : ExtensionRegistry) :
    ∃ t, (actions.foldl applyRegAction s).mergedMiddleware = s.mergedMiddleware ++ t := by
  induction actions generalizing s with
  | nil => exact ⟨[], by simp⟩
  | cons a rest ih =>
      obtain ⟨t, ht⟩ := ih (applyRegAction s a)
      cases a with
      | pre ms => exact ⟨t, by simpa [applyRegAction] using ht⟩
      | post ms => exact ⟨t, by simpa [applyRegAction] using ht⟩
      | merged ms => exact ⟨ms ++ t, by simpa [applyRegAction, List.append_assoc] using ht⟩

/-- register only ever appends to the three middleware arrays. -/
theorem register_appends (s : ExtensionRegistry) (ext : GatekeeperExtension) :
    (∃ t, (register s ext).2.preMiddleware = s.preMiddleware ++ t) ∧
    (∃ t, (register s ext).2.postMiddleware = s.postMiddleware ++ t) ∧
    (∃ t, (register s ext).2.mergedMiddleware = s.mergedMiddleware ++ t) := by
  unfold register
  split
  · exact ⟨⟨[], by simp⟩, ⟨[], by simp⟩, ⟨[], by simp⟩⟩
  · obtain ⟨t1, ht1⟩ := applyRegActions_pre ext.initActions s
    obtain ⟨t2, ht2⟩ := applyRegActions_post ext.initActions s
    obtain ⟨t3, ht3⟩ := applyRegActions_merged ext.initActions s
    cases hres : ext.initResult with
    | ok mws => exact ⟨⟨t1, by simp [hres, ht1]⟩, ⟨t2, by simp [hres, ht2]⟩,
        ⟨t3, by simp [hres, ht3]⟩⟩
    | error e => exact ⟨⟨t1, by simp [hres, ht1]⟩, ⟨t2, by simp [hres, ht2]⟩,
        ⟨t3, by simp [hres, ht3]⟩⟩

/-- C6 amended: across sequences built only of registrations, the three
extension middleware arrays only ever grow by appending, so units
registered earlier are never removed or reordered by a later registration;
and when two extensions with distinct ids each register pre-units, the
final pre array is their units in registration order.  (Unregistering an
extension, by contrast, clears all three arrays, including units other
extensions registered.) -/
theorem extension_registration_append_only :
    (∀ ops, (∀ op ∈ ops, op.isRegister = true) → ∀ s : ExtensionRegistry,
      (∃ t, (runRegistryOps ops s).preMiddleware = s.preMiddleware ++ t) ∧
      (∃ t, (runRegistryOps ops s).postMiddleware = s.postMiddleware ++ t) ∧
      (∃ t, (runRegistryOps ops s).mergedMiddleware = s.mergedMiddleware ++ t)) ∧
    (∀ e1 e2 : GatekeeperExtension, ∀ l1 l2 : List MWHandle,
      e1.id ≠ e2.id → e1.initActions = [.pre l1] → e2.initActions = [.pre l2] →
      (runRegistryOps [.opRegister e1, .opRegister e2] emptyRegistry).preMiddleware =
        l1 ++ l2) := by
  constructor
  · intro ops
    induction ops with
    | nil => exact fun _ s => ⟨⟨[], by simp [runRegistryOps]⟩,
        ⟨[], by simp [runRegistryOps]⟩, ⟨[], by simp [runRegistryOps]⟩⟩
    | cons op rest ih =>
        intro hreg s
        cases op with
        | opUnregister i =>
            have := hreg (.opUnregister i) (List.mem_cons_self _ _)
            simp [RegistryOp.isRegister] at this
        | opRegister ext =>
            have hrest : ∀ op ∈ rest, op.isRegister = true :=
              fun op hop => hreg op (List.mem_cons_of_mem _ hop)
            have hrun : runRegistryOps (RegistryOp.opRegister ext :: rest) s =
                runRegistryOps rest (register s ext).2 := rfl
            obtain ⟨⟨u1, hu1⟩, ⟨u2, hu2⟩, ⟨u3, hu3⟩⟩ := ih hrest (register s ext).2
            obtain ⟨⟨v1, hv1⟩, ⟨v2, hv2⟩, ⟨v3, hv3⟩⟩ := register_appends s ext
            exact ⟨⟨v1 ++ u1, by rw [hrun, hu1, hv1, List.append_assoc]⟩,
              ⟨v2 ++ u2, by rw [hrun, hu2, hv2, List.append_assoc]⟩,
              ⟨v3 ++ u3, by rw [hrun, hu3, hv3, List.append_assoc]⟩⟩
  · intro e1 e2 l1 l2 hne he1 he2
    have hbeq : (e2.id == e1.id) = false := beq_eq_false_iff_ne.mpr (Ne.symm hne)
    cases h1 : e1.initResult <;> cases h2 : e2.initResult <;>
      simp [runRegistryOps, register, emptyRegistry, applyRegAction,
        he1, he2, h1, h2, hbeq, Ne.symm hne]

/-- Witness for the amended C6 at two concrete extensions. -/
theorem extension_registration_append_only_witness :
    (∀ op ∈ regOnlyOps, op.isRegister = true) ∧
    (∃ t, (runRegistryOps regOnlyOps emptyRegistry).preMiddleware =
      emptyRegistry.preMiddleware ++ t) ∧
    (extA.id ≠ extB.id ∧
      (runRegistryOps [.opRegister extA, .opRegister extB] emptyRegistry).preMiddleware =
        [1] ++ [2]) :=
  ⟨by decide,
   (extension_registration_append_only.1 regOnlyOps (by decide) emptyRegistry).1,
   by decide,
   extension_registration_append_only.2 extA extB [1] [2] (by decide) rfl rfl⟩

/-- Membership after a string-record assignment: the element was already
present or is the assigned pair. -/
theorem mem_recordSetStr (r : List (String × String)) (k v : String)
    (kv : String × String) (h : kv ∈ recordSetStr r k v) :
    kv ∈ r ∨ kv = (k, v) := by
  unfold recordSetStr at h
  split at h
  · obtain ⟨kv0, hkv0, heq⟩ := List.mem_map.mp h
    by_cases hk : (kv0.1 == k) = true
    · right
      rw [if_pos hk] at heq
      rw [← heq, eq_of_beq hk]
    · left
      rw [if_neg hk] at heq
      rwa [← heq]
  · rcases List.mem_append.mp h with h1 | h1
    · exact Or.inl h1
    · right
      simpa using h1

/-- Fold invariant of the header-resolution loop: every accumulated header
traces to a successfully resolved entry of the full configuration. -/
theorem resolveHeaders_aux (full : List (String × HeaderValue)) :
    ∀ (hs : List (String × HeaderValue)) (acc : List (String × String)),
      (∀ e ∈ hs, e ∈ full) →
      (∀ kv ∈ acc, ∃ hv, ((kv : String × String).1, hv) ∈ full ∧
        resolvesTo hv = some kv.2) →
      ∀ kv ∈ hs.foldl (fun acc kv =>
          match resolvesTo kv.2 with
          | some s => recordSetStr acc kv.1 s
          | none => acc) acc,
        ∃ hv, ((kv : String × String).1, hv) ∈ full ∧ resolvesTo hv = some kv.2 := by
  intro hs
  induction hs with
  | nil => exact fun acc _ hacc kv2 h2 => hacc kv2 h2
  | cons e rest ih =>
      intro acc hsub hacc kv2 h2
      rw [List.foldl_cons] at h2
      refine ih _ (fun x hx => hsub x (List.mem_cons_of_mem _ hx)) ?_ kv2 h2
      intro kv3 h3
      cases hres : resolvesTo e.2 with
      | none =>
          exact hacc kv3 (by simpa [hres] using h3)
      | some s =>
          rcases mem_recordSetStr acc e.1 s kv3 (by simpa [hres] using h3) with h4 | h4
          · exact hacc kv3 h4
          · exact ⟨e.2, by simp [h4, hsub e (List.mem_cons_self _ _)], by simp [h4, hres]⟩

/-- Every resolved header comes from a configured entry whose value
resolved successfully; entries whose function threw contribute nothing. -/
theorem mem_resolveHeaders (headers : List (String × HeaderValue))
    (kv : String × String) (h : kv ∈ resolveHeaders headers) :
    ∃ hv, (kv.1, hv) ∈ headers ∧ resolvesTo hv = some kv.2 := by
  unfold resolveHeaders at h
  exact resolveHeaders_aux headers headers [] (fun e he => he) (by simp) kv h

/-- C10: the security-headers unit allows on every configuration and every
context, it changes nothing in the context outside the security-headers
entry, and every header it resolves comes from a configured entry whose
value resolved without throwing, so a throwing header function is skipped
rather than faulting the unit. -/
theorem securityHeaders_always_allows (config : SecurityHeadersConfig)
    (context : SHContext) :
    (securityHeadersHandler config context).1 = .b true ∧
    (securityHeadersHandler config context).2.entries = context.entries ∧
    (∀ kv ∈ resolveHeaders config.headers,
      ∃ hv, ((kv : String × String).1, hv) ∈ config.headers ∧
        resolvesTo hv = some kv.2) := by
  obtain ⟨entries, sh⟩ := context
  refine ⟨?_, ?_, fun kv h => mem_resolveHeaders config.headers kv h⟩ <;>
    cases sh <;> simp [securityHeadersHandler]

/-- Witness for C10: with a throwing header function present, the unit
still allows, and the resolved header traces back to the static entry. -/
theorem securityHeaders_always_allows_witness :
    (securityHeadersHandler shConfig0 shCtx0).1 = .b true ∧
    ("X-Request-Source", "app") ∈ resolveHeaders shConfig0.headers ∧
    (∃ hv, ("X-Request-Source", hv) ∈ shConfig0.headers ∧ resolvesTo hv = some "app") :=
  ⟨(securityHeaders_always_allows shConfig0 shCtx0).1,
   by simp [shConfig0, resolveHeaders, resolvesTo, recordSetStr],
   (securityHeaders_always_allows shConfig0 shCtx0).2.2 ("X-Request-Source", "app")
     (by simp [shConfig0, resolveHeaders, resolvesTo, recordSetStr])⟩

/-- C4: the recursion of filterSensitiveData is depth-bounded, so it
terminates on every object graph, cyclic or arbitrarily deep: first, no
infinite chain of direct recursive calls starting at depth 0 exists, since
every call increases the depth by one and calls occur only at depths up to
maxDepth; second, any value reached deeper than maxDepth is replaced by
the max-depth marker; third, a non-sensitive function-valued object entry
is replaced by the function marker instead of being traversed. -/
theorem filterSensitiveData_depth_bounded (S : List String) (heap : Heap)
    (maxDepth : Nat) :
    (∀ f : Nat → HVal × Nat, (f 0).2 = 0 →
      ¬ (∀ n, CallStep S heap maxDepth (f n) (f (n + 1)))) ∧
    (∀ v depth, maxDepth < depth →
      filterSensitiveDataG S heap v depth maxDepth = .vStr "[Max Depth Reached]") ∧
    (∀ r fields k i depth, heap r = .obj fields → (k, .hfunc i) ∈ fields →
      S.contains (lowerString k) = false → depth ≤ maxDepth →
      ∃ out, filterSensitiveDataG S heap (.href r) depth maxDepth = .vObj out ∧
        (k, .vStr "[Function]") ∈ out) := by
  refine ⟨?_, ?_, ?_⟩
  · intro f h0 hstep
    have hdepth : ∀ n, (f n).2 = n := by
      intro n
      induction n with
      | zero => exact h0
      | succ m ih => rw [(hstep m).2.1, ih]
    have hle : (f (maxDepth + 1)).2 ≤ maxDepth := (hstep (maxDepth + 1)).1
    rw [hdepth] at hle
    omega
  · intro v depth h
    have hfuel : maxDepth + 1 - depth = 0 := by omega
    unfold filterSensitiveDataG
    rw [hfuel]
    rfl
  · intro r fields k i depth hr hmem hS hdep
    obtain ⟨fl, hfl⟩ : ∃ fl, maxDepth + 1 - depth = fl + 1 :=
      ⟨maxDepth - depth, by omega⟩
    unfold filterSensitiveDataG
    rw [hfl]
    refine ⟨fields.map (fun kv =>
        if S.contains (lowerString kv.1) then (kv.1, JSValue.vStr "[Filtered]")
        else match kv.2 with
          | .hfunc _ => (kv.1, JSValue.vStr "[Function]")
          | w => (kv.1, filterGAux S heap fl w)), ?_, ?_⟩
    · simp only [filterGAux, hr]
    · have hS2 : lowerString k ∉ S := by simpa using hS
      exact List.mem_map.mpr ⟨(k, .hfunc i), hmem, by simp [hS2]⟩

/-- Witness for C4 on the cyclic heap: the self-referential call chain
cannot be an infinite run of recursive calls, the value is replaced by the
marker past maxDepth, and the function entry maps to the function
marker. -/
theorem filterSensitiveData_depth_bounded_witness :
    (cyclicChain 0).2 = 0 ∧
    (¬ ∀ n, CallStep sensListW cyclicHeap 3 (cyclicChain n) (cyclicChain (n + 1))) ∧
    (3 < 4 ∧ filterSensitiveDataG sensListW cyclicHeap (.href 0) 4 3 =
      .vStr "[Max Depth Reached]") ∧
    (∃ out, filterSensitiveDataG sensListW cyclicHeap (.href 0) 0 3 = .vObj out ∧
      ("fn", JSValue.vStr "[Function]") ∈ out) :=
  ⟨rfl,
   (filterSensitiveData_depth_bounded sensListW cyclicHeap 3).1 cyclicChain rfl,
   ⟨by omega,
    (filterSensitiveData_depth_bounded sensListW cyclicHeap 3).2.1 (.href 0) 4 (by omega)⟩,
   (filterSensitiveData_depth_bounded sensListW cyclicHeap 3).2.2 0
     [("self", .href 0), ("fn", .hfunc 7)] "fn" 7 0 rfl (by decide) rfl (by omega)⟩

/-- One remaining level keeps scalar values unchanged. -/
theorem filterAux_scalar (S : List String) (fl : Nat) (v : JSValue)
    (h : isScalar v = true) : filterAux S (fl + 1) v = v := by
  cases v <;> first
    | rfl
    | simp [isScalar] at h

/-- A sensitive object entry is replaced by the redaction marker. -/
theorem filterAux_sensitive_entry (S : List String) (fields : List (String × JSValue))
    (k : String) (v : JSValue) (fl : Nat)
    (hk : S.contains (lowerString k) = true) (hmem : (k, v) ∈ fields) :
    ∃ out, filterAux S (fl + 1) (.vObj fields) = .vObj out ∧
      (k, .vStr "[Filtered]") ∈ out := by
  refine ⟨fields.map (fun kv =>
      if S.contains (lowerString kv.1) then (kv.1, JSValue.vStr "[Filtered]")
      else match kv.2 with
        | .vFunc _ => (kv.1, JSValue.vStr "[Function]")
        | v => (kv.1, filterAux S fl v)), ?_, ?_⟩
  · simp only [filterAux]
  · have hk2 : lowerString k ∈ S := by simpa using hk
    exact List.mem_map.mpr ⟨(k, v), hmem, by simp [hk2]⟩

/-- A non-sensitive scalar object entry is preserved unchanged when a
level of recursion remains below it. -/
theorem filterAux_scalar_entry (S : List String) (fields : List (String × JSValue))
    (k : String) (v : JSValue) (fl : Nat)
    (hk : S.contains (lowerString k) = false) (hs : isScalar v = true)
    (hmem : (k, v) ∈ fields) :
    ∃ out, filterAux S (fl + 1 + 1) (.vObj fields) = .vObj out ∧ (k, v) ∈ out := by
  refine ⟨fields.map (fun kv =>
      if S.contains (lowerString kv.1) then (kv.1, JSValue.vStr "[Filtered]")
      else match kv.2 with
        | .vFunc _ => (kv.1, JSValue.vStr "[Function]")
        | v => (kv.1, filterAux S (fl + 1) v)), ?_, ?_⟩
  · simp only [filterAux]
  · have hk2 : lowerString k ∉ S := by simpa using hk
    refine List.mem_map.mpr ⟨(k, v), hmem, ?_⟩
    cases v <;> simp [isScalar] at hs <;> simp [hk2, filterAux]

/-- The newest record after an add is the record just added. -/
theorem addMiddlewareExecution_getLast (s : ExecutionStore)
    (m : MiddlewareExecutionRecord) :
    (addMiddlewareExecution s m).middlewareExecutions.getLast? = some m := by
  unfold addMiddlewareExecution
  have hm : maxRecords = 100 := rfl
  split
  · rename_i hgt
    have hlen : (s.middlewareExecutions ++ [m]).length =
        s.middlewareExecutions.length + 1 := by simp
    have hone : 1 ≤ s.middlewareExecutions.length := by
      rw [hlen, hm] at hgt
      omega
    rw [List.drop_append_of_le_length hone, List.getLast?_concat]
  · exact List.getLast?_concat _

/-- The sanitized snapshot of the C3 context: the password entry carries
the redaction marker, the id entry is untouched. -/
theorem sanitizeContext_sensitiveCtx (S : List String)
    (hp : S.contains "password" = true) (hid : S.contains "id" = false)
    (huser : S.contains "user" = false) :
    sanitizeContext S sensitiveCtx =
      [("user", .vObj [("password", .vStr "[Filtered]"), ("id", .vStr "u1")])] := by
  have l1 : lowerString "user" = "user" := rfl
  have l2 : lowerString "password" = "password" := rfl
  have l3 : lowerString "id" = "id" := rfl
  have hp2 : "password" ∈ S := by simpa using hp
  have hid2 : "id" ∉ S := by simpa using hid
  have huser2 : "user" ∉ S := by simpa using huser
  simp [sanitizeContext, sensitiveCtx, sanitizePick, filterSensitiveData, filterAux,
    jsIndex, recordAssign, recordSet, List.lookup, l1, l2, l3, hp2, hid2, huser2]

/-- C3: with password in the sensitive set and id and user outside it, a
sensitive object entry is always replaced by the redaction marker, a
non-sensitive scalar entry is preserved unchanged, and recording a
middleware execution in debug mode on the context of the scenario stores a
record whose snapshot redacts user.password and keeps user.id. -/
theorem recordMiddlewareExecution_redacts (S : List String)
    (hp : S.contains "password" = true) (hid : S.contains "id" = false)
    (huser : S.contains "user" = false) :
    (∀ fields k v fl, S.contains (lowerString k) = true → (k, v) ∈ fields →
      ∃ out, filterAux S (fl + 1) (.vObj fields) = .vObj out ∧
        (k, .vStr "[Filtered]") ∈ out) ∧
    (∀ fields k v fl, S.contains (lowerString k) = false → isScalar v = true →
      (k, v) ∈ fields →
      ∃ out, filterAux S (fl + 1 + 1) (.vObj fields) = .vObj out ∧ (k, v) ∈ out) ∧
    (∀ env options mwName idx t0 t1 res err store,
      env.isDev = true → env.hasWindow = true → options.context = sensitiveCtx →
      ∃ rec, (recordMiddlewareExecution S env options mwName idx t0 t1 res err
          store).middlewareExecutions.getLast? = some rec ∧
        rec.sanitizedContext =
          [("user", .vObj [("password", .vStr "[Filtered]"), ("id", .vStr "u1")])]) := by
  refine ⟨fun fields k v fl hk hmem => filterAux_sensitive_entry S fields k v fl hk hmem,
    fun fields k v fl hk hs hmem => filterAux_scalar_entry S fields k v fl hk hs hmem,
    ?_⟩
  intro env options mwName idx t0 t1 res err store hdev hwin hctx
  unfold recordMiddlewareExecution
  rw [hdev, hwin]
  simp only [Bool.and_self, Bool.not_true, Bool.false_eq_true, if_false]
  refine ⟨_, addMiddlewareExecution_getLast _ _, ?_⟩
  simp [hctx, sanitizeContext_sensitiveCtx S hp hid huser]

/-- Witness for C3 at the concrete sensitive-field list and context. -/
theorem recordMiddlewareExecution_redacts_witness :
    sensList3.contains "password" = true ∧
    ∃ rec, (recordMiddlewareExecution sensList3 envW optionsW none 0 0 0 true none
        emptyStore).middlewareExecutions.getLast? = some rec ∧
      rec.sanitizedContext =
        [("user", .vObj [("password", .vStr "[Filtered]"), ("id", .vStr "u1")])] :=
  ⟨rfl,
   (recordMiddlewareExecution_redacts sensList3 rfl rfl rfl).2.2 envW optionsW
     none 0 0 0 true none emptyStore rfl rfl rfl⟩

/-- The executor walk from index i: when the first k units always allow
and the unit at position k always denies, the walk invokes exactly the
units at offsets 0..k and stops at offset k. -/
theorem executeChainAux_short_circuit (units : List ChainUnit) (k i : Nat)
    (ctx : JSValue) (hk : k < units.length)
    (hallow : ∀ j u, j < k → units[j]? = some u → ∀ c, allowsOf (u.run c).1 = true)
    (hdeny : ∀ u, units[k]? = some u → ∀ c, allowsOf (u.run c).1 = false) :
    (executeChainAux units ctx i).1.invoked = List.range' i (k + 1) ∧
    (executeChainAux units ctx i).1.stoppedAt = some (k + i) := by
  induction units generalizing k i ctx with
  | nil => simp at hk
  | cons u rest ih =>
      cases k with
      | zero =>
          have hd := hdeny u (by simp) ctx
          simp [executeChainAux, hd, List.range']
      | succ k2 =>
          have ha := hallow 0 u (Nat.succ_pos _) (by simp) ctx
          have hk2 : k2 < rest.length := by simpa using hk
          have hallow2 : ∀ j u2, j < k2 → rest[j]? = some u2 →
              ∀ c, allowsOf (u2.run c).1 = true := by
            intro j u2 hj hu2 c
            exact hallow (j + 1) u2 (Nat.succ_lt_succ hj) (by simpa using hu2) c
          have hdeny2 : ∀ u2, rest[k2]? = some u2 →
              ∀ c, allowsOf (u2.run c).1 = false := by
            intro u2 hu2 c
            exact hdeny u2 (by simpa using hu2) c
          obtain ⟨h1, h2⟩ := ih k2 (i + 1) (u.run ctx).2 hk2 hallow2 hdeny2
          constructor
          · simp only [executeChainAux, ha, if_true]
            rw [h1]
            simp [List.range']
          · simp only [executeChainAux, ha, if_true]
            rw [h2]
            exact congrArg some (by omega)

/-- C1: whenever the units before position k always allow and the unit at
position k always denies, the chain executor invokes exactly the units at
positions 0..k, in order, never touches any unit after k, and records
stoppedAt = k. -/
theorem chain_short_circuit (units : List ChainUnit) (k : Nat) (ctx : JSValue)
    (hk : k < units.length)
    (hallow : ∀ j u, j < k → units[j]? = some u → ∀ c, allowsOf (u.run c).1 = true)
    (hdeny : ∀ u, units[k]? = some u → ∀ c, allowsOf (u.run c).1 = false) :
    (executeChain units ctx).1.invoked = List.range (k + 1) ∧
    (executeChain units ctx).1.stoppedAt = some k := by
  obtain ⟨h1, h2⟩ := executeChainAux_short_circuit units k 0 ctx hk hallow hdeny
  unfold executeChain
  rw [h1, h2, List.range_eq_range']
  simp

/-- Witness for C1 on the allow, allow, deny, allow chain: exactly the
first three units run and the chain stops at index 2. -/
theorem chain_short_circuit_witness :
    2 < shortUnits.length ∧
    (executeChain shortUnits (.vObj [])).1.invoked = List.range 3 ∧
    (executeChain shortUnits (.vObj [])).1.stoppedAt = some 2 := by
  have hallow : ∀ j u, j < 2 → shortUnits[j]? = some u →
      ∀ c, allowsOf (u.run c).1 = true := by
    intro j u hj hu c
    have hu2 : u = allowUnit := by
      match j, hj with
      | 0, _ => simpa [shortUnits] using hu.symm
      | 1, _ => simpa [shortUnits] using hu.symm
    rw [hu2]
    rfl
  have hdeny : ∀ u, shortUnits[2]? = some u → ∀ c, allowsOf (u.run c).1 = false := by
    intro u hu c
    have hu2 : u = denyUnit := by simpa [shortUnits] using hu.symm
    rw [hu2]
    rfl
  obtain ⟨h1, h2⟩ := chain_short_circuit shortUnits 2 (.vObj [])
    (by simp [shortUnits]) hallow hdeny
  exact ⟨by simp [shortUnits], h1, h2⟩

/-- The verdict component of the instrumented walk is exactly the plain
executor walk, whatever the store holds. -/
theorem executeChainDebugAux_fst (S : List String) (env : DebugEnv)
    (options : DebugOptions) (units : List ChainUnit) (ctx : JSValue) (i : Nat)
    (store : ExecutionStore) :
    (executeChainDebugAux S env options units ctx i store).1 =
      executeChainAux units ctx i := by
  induction units generalizing ctx i store with
  | nil => rfl
  | cons u rest ih =>
      cases h : allowsOf (u.run ctx).1 <;>
        simp [executeChainDebugAux, executeChainAux, h, ih]

/-- C5: debug recording appends to the execution store without changing
the decision: the outcome and final context of the instrumented run equal
those of the plain executor, and the records already in the store never
influence the verdict. -/
theorem debug_recording_preserves_decision (S : List String) (env : DebugEnv)
    (options : DebugOptions) (units : List ChainUnit) (ctx : JSValue)
    (store store2 : ExecutionStore) :
    (executeChainDebug S env options units ctx store).1 = executeChain units ctx ∧
    (executeChainDebug S env options units ctx store).1 =
      (executeChainDebug S env options units ctx store2).1 := by
  have h1 : ∀ st : ExecutionStore,
      (executeChainDebug S env options units ctx st).1 = executeChain units ctx :=
    fun st => executeChainDebugAux_fst S env options units ctx 0 st
  exact ⟨h1 store, (h1 store).trans (h1 store2).symm⟩

end Gatekeeper
